import Mathlib

/-!
Shallow embedding of the codecrafters-git-c object store and pack reader
(src/src/objects.c and src/src/clone.c), together with theorems settling the
frozen claims about the object codec, the SHA-1 content addressing, the tree
codec, the pack object header decoding and the checkout routine.

Bytes are modelled as lists of octet values; machine arithmetic that can wrap
is written with explicit truncation.
-/

set_option maxRecDepth 100000

/-- A byte buffer; each element is an octet value. -/
abbrev Bytes := List Nat

/-- Left rotation of a 32-bit word, one of the SHA-1 compression primitives. -/
def rotl32 (k n : Nat) : Nat := ((n <<< k) ||| (n >>> (32 - k))) % 2 ^ 32

/-- SHA-1 working state: the five 32-bit chaining words. -/
structure Sha1State where
  a : Nat
  b : Nat
  c : Nat
  d : Nat
  e : Nat
deriving DecidableEq

/-- The SHA-1 round function for round t (FIPS 180-1). -/
def sha1F (t b c d : Nat) : Nat :=
  if t < 20 then (b &&& c) ||| ((b ^^^ (2 ^ 32 - 1)) &&& d)
  else if t < 40 then b ^^^ c ^^^ d
  else if t < 60 then (b &&& c) ||| (b &&& d) ||| (c &&& d)
  else b ^^^ c ^^^ d

/-- The SHA-1 round constant for round t. -/
def sha1K (t : Nat) : Nat :=
  if t < 20 then 0x5A827999
  else if t < 40 then 0x6ED9EBA1
  else if t < 60 then 0x8F1BBCDC
  else 0xCA62C1D6

/-- Big-endian 32-bit word read from four consecutive bytes of a block. -/
def word32At (block : Bytes) (i : Nat) : Nat :=
  block.getD i 0 * 2 ^ 24 + block.getD (i + 1) 0 * 2 ^ 16 +
    block.getD (i + 2) 0 * 2 ^ 8 + block.getD (i + 3) 0

/-- The sixteen message words of one 64-byte block. -/
def initWords (block : Bytes) : List Nat :=
  (List.range 16).map (fun i => word32At block (4 * i))

/-- Message schedule expansion: appends fuel further words, each the 1-bit left
rotation of the xor of the words 3, 8, 14 and 16 positions back. -/
def expandWords : List Nat → Nat → List Nat
  | w, 0 => w
  | w, fuel + 1 =>
    let n := w.length
    let x := rotl32 1 (w.getD (n - 3) 0 ^^^ w.getD (n - 8) 0 ^^^
      w.getD (n - 14) 0 ^^^ w.getD (n - 16) 0)
    expandWords (w ++ [x]) fuel

/-- One SHA-1 round: rotate, mix, shift the state window. -/
def sha1Round (w : List Nat) (st : Sha1State) (t : Nat) : Sha1State :=
  let tmp := (rotl32 5 st.a + sha1F t st.b st.c st.d + st.e + sha1K t +
    w.getD t 0) % 2 ^ 32
  ⟨tmp, st.a, rotl32 30 st.b, st.c, st.d⟩

/-- Compression of one 64-byte block into the chaining state. -/
def sha1Block (st : Sha1State) (block : Bytes) : Sha1State :=
  let w := expandWords (initWords block) 64
  let r := (List.range 80).foldl (sha1Round w) st
  ⟨(st.a + r.a) % 2 ^ 32, (st.b + r.b) % 2 ^ 32, (st.c + r.c) % 2 ^ 32,
    (st.d + r.d) % 2 ^ 32, (st.e + r.e) % 2 ^ 32⟩

/-- Big-endian rendering of a 64-bit length field. -/
def be64 (n : Nat) : Bytes :=
  [n / 2 ^ 56 % 256, n / 2 ^ 48 % 256, n / 2 ^ 40 % 256, n / 2 ^ 32 % 256,
   n / 2 ^ 24 % 256, n / 2 ^ 16 % 256, n / 2 ^ 8 % 256, n % 256]

/-- Big-endian rendering of a 32-bit word as four bytes. -/
def be32 (n : Nat) : Bytes := [n / 2 ^ 24 % 256, n / 2 ^ 16 % 256, n / 2 ^ 8 % 256, n % 256]

/-- SHA-1 message padding: a 0x80 byte, zeros to 56 mod 64, the bit length. -/
def sha1Pad (msg : Bytes) : Bytes :=
  msg ++ [128] ++ List.replicate ((119 - msg.length % 64) % 64) 0 ++ be64 (msg.length * 8)

/-- Split a buffer into consecutive 64-byte blocks; the fuel argument is an
upper bound on the number of blocks (the initial call passes the length). -/
def chunks64 : Nat → Bytes → List Bytes
  | 0, _ => []
  | _, [] => []
  | fuel + 1, l => l.take 64 :: chunks64 fuel (l.drop 64)

/-- The SHA-1 initialization vector. -/
def sha1Init : Sha1State := ⟨0x67452301, 0xEFCDAB89, 0x98BADCFE, 0x10325476, 0xC3D2E1F0⟩

/-- SHA-1 digest of a message as 20 raw bytes.  This models the external
OpenSSL SHA1 call made by objects.c and clone.c, per FIPS 180-1. -/
def sha1Digest (msg : Bytes) : Bytes :=
  let padded := sha1Pad msg
  let fin := (chunks64 padded.length padded).foldl sha1Block sha1Init
  be32 fin.a ++ be32 fin.b ++ be32 fin.c ++ be32 fin.d ++ be32 fin.e

/-- ASCII code of the lowercase hex digit for a value below 16. -/
def hexDigitVal (n : Nat) : Nat := if n < 10 then 48 + n else 87 + n

/-- Hex rendering of bytes as ASCII codes, two lowercase digits per byte:
the sprintf %02x loops of sha1_hash and its duplicates. -/
def hexBytes : Bytes → Bytes
  | [] => []
  | b :: bs => hexDigitVal (b / 16 % 16) :: hexDigitVal (b % 16) :: hexBytes bs

/-- The 40-hex-character object identifier as ASCII byte values
(sha1_hash in objects.c). -/
def sha1HexBytes (msg : Bytes) : Bytes := hexBytes (sha1Digest msg)

/-- The digest rendered as a Lean string, for the hex-string-valued claims. -/
def sha1HexString (msg : Bytes) : String := ⟨(sha1HexBytes msg).map Char.ofNat⟩

/-- ASCII bytes of the object kind blob. -/
def blobK : Bytes := [98, 108, 111, 98]

/-- ASCII bytes of the object kind tree. -/
def treeK : Bytes := [116, 114, 101, 101]

/-- ASCII bytes of the object kind commit. -/
def commitK : Bytes := [99, 111, 109, 109, 105, 116]

/-- ASCII bytes of the object kind tag. -/
def tagK : Bytes := [116, 97, 103]

/-- Reversed decimal digits of n as ASCII bytes; fuel bounds the recursion
(the initial call passes n itself, which is at least the digit count). -/
def decDigitsRev : Nat → Nat → Bytes
  | 0, _ => []
  | fuel + 1, n => if n = 0 then [] else (n % 10 + 48) :: decDigitsRev fuel (n / 10)

/-- ASCII decimal rendering of a size, as the %zu conversion in the header
sprintf produces it (a single 0 digit for zero, no leading zeros otherwise). -/
def natToDecBytes (n : Nat) : Bytes := if n = 0 then [48] else (decDigitsRev n n).reverse

/-- Canonical object bytes: kind, space, decimal size, NUL, content.  This is
the header sprintf followed by the two memcpy calls, the layout shared by
create_blob_from_file, write_tree_recursive, create_commit_object and
process_pack_file. -/
def mkCanonical (kind content : Bytes) : Bytes :=
  kind ++ [32] ++ natToDecBytes content.length ++ [0] ++ content

/-- Whether a byte is an ASCII decimal digit. -/
def isDigitByte (b : Nat) : Bool := 48 ≤ b && b ≤ 57

/-- Model of atoi as read_object applies it to the size field: the value of the
longest leading run of decimal digits.  The header places a NUL right after the
digits, so the leading-whitespace and sign handling of atoi is never exercised;
C int overflow is undefined behavior and outside the model. -/
def atoiNat (l : Bytes) : Nat :=
  (l.takeWhile isDigitByte).foldl (fun a d => 10 * a + (d - 48)) 0

/-- Index of the first occurrence of byte b, as the memchr calls in
read_object compute it. -/
def memchrIdx (b : Nat) : Bytes → Option Nat
  | [] => none
  | x :: xs => if x = b then some 0 else (memchrIdx b xs).map (· + 1)

/-- A decoded object: type string, declared size, content bytes
(the git_object struct of git.h). -/
structure GitObject where
  type : Bytes
  size : Nat
  content : Bytes
deriving DecidableEq

/-- Outcome of read_object: a parsed object, a NULL return (the graceful
failure paths: missing file or inflate error), or undefined behavior (header
parsing when memchr finds no space, or no NUL after it: the code then
dereferences a NULL-derived pointer or computes a wild header size). -/
inductive ReadResult where
  | ok (o : GitObject)
  | nullRet
  | undef
deriving DecidableEq

/-- Header parsing of read_object (objects.c): memchr the first space, memchr
the first NUL after it, take the prefix as the type, atoi the size, and copy
everything after the NUL as content.  No validation of the type is performed. -/
def decodeObject (buf : Bytes) : ReadResult :=
  match memchrIdx 32 buf with
  | none => .undef
  | some si =>
    match memchrIdx 0 (buf.drop (si + 1)) with
    | none => .undef
    | some k =>
      .ok ⟨buf.take si, atoiNat (buf.drop (si + 1)), buf.drop (si + 1 + k + 1)⟩

/-- Abstract deflate/inflate pair standing for zlib, the external compressor:
deflate is what write_compressed_object puts in the file, inflate is the
decompression loop of read_object (none models an inflate error return). -/
structure Zlib where
  deflate : Bytes → Bytes
  inflate : Bytes → Option Bytes

/-- The object database as a map from file path to file bytes. -/
abbrev Store := List (Bytes × Bytes)

/-- First-match association lookup (a fopen of the given path). -/
def storeLookup (s : Store) (p : Bytes) : Option Bytes :=
  match s with
  | [] => none
  | (q, v) :: rest => if q = p then some v else storeLookup rest p

/-- ASCII bytes of the objects directory prefix .git/objects. -/
def gitObjectsDir : Bytes := [46, 103, 105, 116, 47, 111, 98, 106, 101, 99, 116, 115]

/-- Two-level object path: .git/objects/, first two hex characters, slash,
remaining 38 (get_object_path in objects.c). -/
def objectPath (hash : Bytes) : Bytes :=
  gitObjectsDir ++ [47] ++ hash.take 2 ++ [47] ++ hash.drop 2

/-- store_object followed by write_compressed_object: deflate the full
header+content buffer and write it at the two-level object path (a later
write of the same path shadows an earlier one, as fopen wb truncates). -/
def storeObjectFs (z : Zlib) (fs : Store) (hash : Bytes) (data : Bytes) : Store :=
  (objectPath hash, z.deflate data) :: fs

/-- read_object: open the object path, inflate the whole file, parse the
header. -/
def readObjectFs (z : Zlib) (fs : Store) (hash : Bytes) : ReadResult :=
  match storeLookup fs (objectPath hash) with
  | none => .nullRet
  | some file =>
    match z.inflate file with
    | none => .nullRet
    | some buf => decodeObject buf

/-- The put operation of the store: canonical bytes, SHA-1 hex name,
compressed write — the pattern create_blob_from_file and process_pack_file
share. -/
def putObjectFs (z : Zlib) (fs : Store) (kind content : Bytes) : Bytes × Store :=
  let data := mkCanonical kind content
  let hash := sha1HexBytes data
  (hash, storeObjectFs z fs hash data)

/-- The size-continuation loop of the per-object pack header in
process_pack_file: while the previous byte has its top bit set, read the next
byte, or its low 7 bits shifted by the running shift into the size, and
advance.  A read past the end of the buffer is modelled as reading a zero
byte, which terminates the loop.  Returns the final size and the number of
bytes the loop consumed. -/
def szLoop (prev : Nat) (rest : Bytes) (sz shift : Nat) : Nat × Nat :=
  if prev &&& 128 = 0 then (sz, 0)
  else
    match rest with
    | [] => (sz, 1)
    | b :: bs =>
      let r := szLoop b bs (sz ||| ((b &&& 127) <<< shift)) (shift + 7)
      (r.1, r.2 + 1)

/-- Per-object pack header decoding (process_pack_file): the type from bits
4 to 6 of the first byte, the initial size from its low four bits, then the
continuation loop starting at shift 4.  Returns the type, the size and the
position just past the header. -/
def readObjHeader (data : Bytes) (pos : Nat) : Nat × Nat × Nat :=
  let b0 := data.getD pos 0
  let ty := (b0 >>> 4) &&& 7
  let r := szLoop b0 (data.drop (pos + 1)) (b0 &&& 15) 4
  (ty, r.1, pos + 1 + r.2)

/-- Following the spec sentence on header continuation: the run of bytes
entered while the top bit of the current byte is set; a read past the end of
the buffer yields a zero byte, which ends the run. -/
def contRun : Nat → Bytes → Bytes
  | prev, [] => if prev &&& 128 = 0 then [] else [0]
  | prev, b :: bs => if prev &&& 128 = 0 then [] else b :: contRun b bs

/-- Following the spec sentence on size accumulation: the i-th continuation
byte contributes its low 7 bits weighted by 2 to the power (shift + 7 i). -/
def sumContrib : Bytes → Nat → Nat
  | [], _ => 0
  | c :: cs, s => (c &&& 127) * 2 ^ s + sumContrib cs (s + 7)

/-- The spec reading of the header size with the first-byte mask left as a
parameter: the claim text masks the first byte with 7 (its low 3 bits), the
code masks with 15 (bits 0 to 3). -/
def specHeaderSize (lowMask : Nat) (data : Bytes) (pos : Nat) : Nat :=
  let b0 := data.getD pos 0
  (b0 &&& lowMask) + sumContrib (contRun b0 (data.drop (pos + 1))) 4

/-- The spec reading of the header type: bits 4 to 6 selected by mask 0x70 and
shifted down. -/
def specHeaderType (data : Bytes) (pos : Nat) : Nat :=
  (data.getD pos 0 &&& 112) >>> 4

/-- Result of one zlib inflate call on an object body: whether it returned
Z_STREAM_END, the number of compressed input bytes consumed (total_in), and
the contents of the output buffer (declared-size many bytes). -/
structure InflRes where
  streamEnd : Bool
  totalIn : Nat
  output : Bytes

/-- An abstract streaming decompressor, from the remaining pack bytes and the
declared output size to an inflate outcome.  zlib itself is an external
collaborator; the pack reader only observes this interface. -/
abbrev Inflater := Bytes → Nat → InflRes

/-- The ternary chain mapping a pack type code to its name; every code other
than commit, tree and blob falls through to tag, exactly as in the source. -/
def typeName (ty : Nat) : Bytes :=
  if ty = 1 then commitK else if ty = 2 then treeK else if ty = 3 then blobK else tagK

/-- The observable effect of one pack loop iteration: the objects stored (hash
hex and full canonical bytes) and the cursor after the iteration. -/
structure StepRes where
  stored : List (Bytes × Bytes)
  pos : Nat
deriving DecidableEq

/-- One iteration of the object loop of process_pack_file: decode the header;
for commit, tree, blob and tag inflate the body and, on Z_STREAM_END, store
the re-wrapped object and advance the cursor by total_in (on inflate failure
the iteration is abandoned by continue, leaving the cursor at the start of
the body); for ref-delta skip the 20-byte base reference only — inflate is
never invoked, so total_in is 0 and not one payload byte is consumed; any
other type falls through the switch with the cursor unmoved. -/
def processObject (D : Inflater) (pack : Bytes) (pos : Nat) : StepRes :=
  let h := readObjHeader pack pos
  let ty := h.1
  let sz := h.2.1
  let p1 := h.2.2
  if ty = 1 ∨ ty = 2 ∨ ty = 3 ∨ ty = 4 then
    let z := D (pack.drop p1) sz
    if z.streamEnd then
      let full := typeName ty ++ [32] ++ natToDecBytes sz ++ [0] ++ z.output
      ⟨[(sha1HexBytes full, full)], p1 + z.totalIn⟩
    else ⟨[], p1⟩
  else if ty = 7 then ⟨[], p1 + 20⟩
  else ⟨[], p1⟩

/-- Whether a buffer begins with the four marker bytes P, A, C, K. -/
def isPACKat (l : Bytes) : Bool :=
  match l with
  | 80 :: 65 :: 67 :: 75 :: _ => true
  | _ => false

/-- The strstr scan locating the PACK marker: positions are examined left to
right within the NUL-terminated prefix of the buffer (strstr treats its
haystack as a C string, so a zero byte ends the scan). -/
def strstrPACK : Bytes → Option Nat
  | [] => none
  | b :: rest =>
    if isPACKat (b :: rest) then some 0
    else if b = 0 then none
    else (strstrPACK rest).map (· + 1)

/-- Big-endian 32-bit read at an offset (the ntohl header reads). -/
def readBE32 (l : Bytes) (i : Nat) : Nat :=
  l.getD i 0 * 2 ^ 24 + l.getD (i + 1) 0 * 2 ^ 16 +
    l.getD (i + 2) 0 * 2 ^ 8 + l.getD (i + 3) 0

/-- The object loop: count iterations of processObject threading the cursor,
collecting the stored objects. -/
def packLoop (D : Inflater) (p : Bytes) : Nat → Nat → List (Bytes × Bytes)
  | 0, _ => []
  | k + 1, pos =>
    let r := processObject D p pos
    r.stored ++ packLoop D p k r.pos

/-- process_pack_file: find the PACK marker with strstr; with no marker print
the invalid-signature diagnostic and return code 1 having stored nothing;
otherwise read the object count from the header and run the object loop from
offset 12 relative to the marker, returning code 0 and the stored objects. -/
def processPack (D : Inflater) (pack : Bytes) : Nat × List (Bytes × Bytes) :=
  match strstrPACK pack with
  | none => (1, [])
  | some st =>
    let p := pack.drop st
    (0, packLoop D p (readBE32 p 8) 12)

/-- A tree entry: mode string, name and hash as byte lists; the hash is kept
in its 40-hex-character form, as the tree_entry struct of git.h does. -/
structure TEntry where
  mode : Bytes
  name : Bytes
  hash : Bytes
deriving DecidableEq

/-- Three-way byte-string comparison with the sign behavior of strcmp: a
shorter string that is a prefix of the other compares smaller (its NUL
terminator against a nonzero byte).  Only the sign is used by the sort. -/
def strcmpSign : Bytes → Bytes → Int
  | [], [] => 0
  | [], _ :: _ => -1
  | _ :: _, [] => 1
  | a :: as, b :: bs => if a < b then -1 else if b < a then 1 else strcmpSign as bs

/-- The inner pass of the exchange sort in write_tree_recursive: compare the
current slot with each later slot, swapping whenever the current name
compares greater.  Returns the final value of the current slot and the tail
after all swaps. -/
def exchPass (x : TEntry) : List TEntry → TEntry × List TEntry
  | [] => (x, [])
  | y :: ys =>
    if 0 < strcmpSign x.name y.name then
      let r := exchPass y ys
      (r.1, x :: r.2)
    else
      let r := exchPass x ys
      (r.1, y :: r.2)

/-- The nested-loop exchange sort of write_tree_recursive; the fuel equals the
list length, one unit per outer iteration. -/
def exchSort : Nat → List TEntry → List TEntry
  | 0, l => l
  | _ + 1, [] => []
  | fuel + 1, x :: xs =>
    let r := exchPass x xs
    r.1 :: exchSort fuel r.2

/-- Sorting the collected entries by name before serialization. -/
def sortEntries (l : List TEntry) : List TEntry := exchSort l.length l

/-- Value of an ASCII hex digit (decimal digits, lowercase and uppercase
letters), 0 for other bytes, as sscanf %2x reads them here. -/
def hexVal (b : Nat) : Nat :=
  if 48 ≤ b ∧ b ≤ 57 then b - 48
  else if 97 ≤ b ∧ b ≤ 102 then b - 87
  else if 65 ≤ b ∧ b ≤ 70 then b - 55
  else 0

/-- The hex-to-binary loop of write_tree_recursive: consecutive pairs of the
40 hash characters become 20 raw bytes. -/
def hexPairsToBytes : Bytes → Bytes
  | a :: b :: rest => (hexVal a * 16 + hexVal b) :: hexPairsToBytes rest
  | _ => []

/-- Serialized form of one tree entry: mode, space, name, NUL, then the 20
raw hash bytes. -/
def encodeEntry (e : TEntry) : Bytes :=
  e.mode ++ [32] ++ e.name ++ [0] ++ hexPairsToBytes e.hash

/-- Tree content: the serialized entries concatenated in list order
(write_tree_recursive emits them after sorting). -/
def treeContent (es : List TEntry) : Bytes := (es.map encodeEntry).flatten

/-- The mode scan of parse_tree_object: collect up to six bytes that are not
a space.  For the well-formed trees the theorems consider the scan never
reaches the end of the buffer. -/
def takeMode : Bytes → Nat → Bytes
  | _, 0 => []
  | [], _ => []
  | b :: bs, k + 1 => if b = 32 then [] else b :: takeMode bs k

/-- The entry loop of parse_tree_object: while the cursor is below the
declared size, scan the mode up to a space (at most six bytes) and skip one
byte, scan the name up to a NUL and skip it, then read 20 raw hash bytes and
render them as 40 hex characters.  The fuel equals the declared size; the
cursor advances by at least 22 per entry, so the loop never exhausts it. -/
def parseLoop (content : Bytes) (size : Nat) : Nat → Nat → List TEntry
  | _, 0 => []
  | pos, fuel + 1 =>
    if pos < size then
      let m := takeMode (content.drop pos) 6
      let pos1 := pos + m.length + 1
      let nm := (content.drop pos1).takeWhile (· ≠ 0)
      let pos2 := pos1 + nm.length + 1
      let hb := (content.drop pos2).take 20
      ⟨m, nm, hexBytes hb⟩ :: parseLoop content size (pos2 + 20) fuel
    else []

/-- parse_tree_object: NULL unless the type string is tree, otherwise the
entry loop bounded by the declared size. -/
def parseTreeObject (o : GitObject) : Option (List TEntry) :=
  if o.type = treeK then some (parseLoop o.content o.size 0 o.size) else none

/-- Working directory state: the files written (path to bytes, latest write
first) and the directories created. -/
structure FS where
  files : List (Bytes × Bytes)
  dirs : List Bytes
deriving DecidableEq

/-- Write (create or truncate) a file. -/
def fsWrite (fs : FS) (path content : Bytes) : FS := ⟨(path, content) :: fs.files, fs.dirs⟩

/-- Create a directory. -/
def fsMkdir (fs : FS) (path : Bytes) : FS := ⟨fs.files, path :: fs.dirs⟩

/-- Current content of a file, if any write reached it. -/
def fsRead (fs : FS) (path : Bytes) : Option Bytes := storeLookup fs.files path

/-- The directory mode string 40000 as bytes. -/
def dirMode : Bytes := [52, 48, 48, 48, 48]

/-- checkout_tree (objects.c), parameterized by the object reader R standing
for read_object against the store (none is a NULL return).  Read the tree
object and parse it, returning code 1 if either step fails; then for each
entry build the path prefix/name and either create the subdirectory and
recurse (the recursive return code is discarded), or read the blob and write
size-many bytes of its content to the path; an entry whose blob read returns
NULL is passed over silently.  Returns the file system and the return code.
The fuel bounds the recursion depth; the theorems supply enough of it. -/
def checkoutTree (R : Bytes → Option GitObject) :
    Nat → Bytes → Bytes → FS → FS × Nat
  | 0, _, _, fs => (fs, 1)
  | fuel + 1, treeHash, pre, fs =>
    match R treeHash with
    | none => (fs, 1)
    | some obj =>
      match parseTreeObject obj with
      | none => (fs, 1)
      | some es =>
        let fin := es.foldl (fun acc e =>
          let path := pre ++ [47] ++ e.name
          if e.mode = dirMode then
            (checkoutTree R fuel e.hash path (fsMkdir acc path)).1
          else
            match R e.hash with
            | some blob => fsWrite acc path (blob.content.take blob.size)
            | none => acc) fs
        (fin, 0)

/-! Helper lemmas on the decimal size field. -/

/-- Every byte the decimal renderer emits is an ASCII digit. -/
theorem decDigitsRev_digits : ∀ fuel n b, b ∈ decDigitsRev fuel n → 48 ≤ b ∧ b ≤ 57 := by
  intro fuel
  induction fuel with
  | zero => intro n b h; simp [decDigitsRev] at h
  | succ m ih =>
    intro n b h
    by_cases hn : n = 0
    · simp [decDigitsRev, hn] at h
    · simp only [decDigitsRev, if_neg hn, List.mem_cons] at h
      rcases h with h | h
      · subst h
        have := Nat.mod_lt n (show 0 < 10 by decide)
        omega
      · exact ih _ _ h

/-- Every byte of the rendered size is an ASCII digit. -/
theorem natToDecBytes_digits (n b : Nat) (h : b ∈ natToDecBytes n) : 48 ≤ b ∧ b ≤ 57 := by
  by_cases hn : n = 0
  · simp [natToDecBytes, hn] at h
    omega
  · simp only [natToDecBytes, if_neg hn, List.mem_reverse] at h
    exact decDigitsRev_digits n n b h

/-- Folding the decimal accumulator over the rendered digits recovers the
value, shifted under any prior accumulator. -/
theorem decDigitsRev_foldl : ∀ fuel n a, n ≤ fuel →
    List.foldl (fun s d => 10 * s + (d - 48)) a (decDigitsRev fuel n).reverse =
      a * 10 ^ (decDigitsRev fuel n).length + n := by
  intro fuel
  induction fuel with
  | zero => intro n a h; interval_cases n; simp [decDigitsRev]
  | succ m ih =>
    intro n a h
    by_cases hn : n = 0
    · simp [decDigitsRev, hn]
    · have hdiv : n / 10 ≤ m := by
        have h1 : n / 10 < n := Nat.div_lt_self (Nat.pos_of_ne_zero hn) (by decide)
        omega
      simp only [decDigitsRev, if_neg hn, List.reverse_cons, List.foldl_append,
        List.foldl_cons, List.foldl_nil, List.length_cons]
      rw [ih (n / 10) a hdiv]
      have hmod : n % 10 + 48 - 48 = n % 10 := by omega
      rw [hmod]
      have : 10 * (a * 10 ^ (decDigitsRev m (n / 10)).length + n / 10) + n % 10 =
          a * (10 ^ (decDigitsRev m (n / 10)).length * 10) + (10 * (n / 10) + n % 10) := by ring
      rw [this, Nat.div_add_mod]
      rw [pow_succ]

/-- Scanning with a predicate every element of a prefix satisfies walks past
that prefix. -/
theorem takeWhile_append_of_all (p : Nat → Bool) :
    ∀ (l r : Bytes), (∀ b ∈ l, p b = true) →
      (l ++ r).takeWhile p = l ++ r.takeWhile p := by
  intro l
  induction l with
  | nil => intro r _; rfl
  | cons x xs ih =>
    intro r h
    have hx : p x = true := h x (by simp)
    simp only [List.cons_append, List.takeWhile_cons, hx, if_true]
    rw [ih r (fun b hb => h b (by simp [hb]))]

/-- The digit run of the rendered size stops exactly at the following NUL. -/
theorem takeWhile_dec_nul (n : Nat) (rest : Bytes) :
    (natToDecBytes n ++ 0 :: rest).takeWhile isDigitByte = natToDecBytes n := by
  have hall : ∀ b ∈ natToDecBytes n, isDigitByte b = true := by
    intro b hb
    have := natToDecBytes_digits n b hb
    simp only [isDigitByte, Bool.and_eq_true, decide_eq_true_eq]
    omega
  rw [takeWhile_append_of_all isDigitByte _ _ hall]
  simp [List.takeWhile_cons, isDigitByte]

/-- atoi recovers the rendered size when a NUL terminates the digit run. -/
theorem atoiNat_dec (n : Nat) (rest : Bytes) :
    atoiNat (natToDecBytes n ++ 0 :: rest) = n := by
  unfold atoiNat
  rw [takeWhile_dec_nul]
  by_cases hn : n = 0
  · subst hn; rfl
  · simp only [natToDecBytes, if_neg hn]
    have := decDigitsRev_foldl n n 0 (le_refl n)
    simpa using this

/-! Helper lemmas on memchr over the canonical layout. -/

/-- memchr finds the separator right after a clean prefix. -/
theorem memchrIdx_clean_prefix (b : Nat) :
    ∀ (l r : Bytes), (∀ x ∈ l, x ≠ b) →
      memchrIdx b (l ++ b :: r) = some l.length := by
  intro l
  induction l with
  | nil => intro r _; simp [memchrIdx]
  | cons x xs ih =>
    intro r h
    have hx : x ≠ b := h x (by simp)
    simp only [List.cons_append, memchrIdx, if_neg hx, List.append_eq]
    rw [ih r (fun y hy => h y (by simp [hy]))]
    rfl

/-- Parsing the canonical bytes yields exactly the kind, the content length
and the content, for any kind free of space bytes — read_object never checks
the kind against a known list. -/
theorem decodeObject_mkCanonical (K C : Bytes) (hK : ∀ x ∈ K, x ≠ 32) :
    decodeObject (mkCanonical K C) = .ok ⟨K, C.length, C⟩ := by
  have h1 : memchrIdx 32 (K ++ 32 :: (natToDecBytes C.length ++ 0 :: C)) =
      some K.length := memchrIdx_clean_prefix 32 K _ hK
  have hshape : mkCanonical K C = K ++ 32 :: (natToDecBytes C.length ++ 0 :: C) := by
    simp [mkCanonical]
  have hdrop : (K ++ 32 :: (natToDecBytes C.length ++ 0 :: C)).drop (K.length + 1) =
      natToDecBytes C.length ++ 0 :: C := by
    have hsh : K ++ 32 :: (natToDecBytes C.length ++ 0 :: C) =
        (K ++ [32]) ++ (natToDecBytes C.length ++ 0 :: C) := by simp
    rw [hsh]
    exact List.drop_left' (by simp)
  have h2 : memchrIdx 0 (natToDecBytes C.length ++ 0 :: C) =
      some (natToDecBytes C.length).length := by
    apply memchrIdx_clean_prefix
    intro x hx
    have := natToDecBytes_digits C.length x hx
    omega
  have h3 : atoiNat (natToDecBytes C.length ++ 0 :: C) = C.length := atoiNat_dec _ _
  have h4 : (K ++ 32 :: (natToDecBytes C.length ++ 0 :: C)).take K.length = K :=
    List.take_left' rfl
  have h5 : (K ++ 32 :: (natToDecBytes C.length ++ 0 :: C)).drop
      (K.length + 1 + (natToDecBytes C.length).length + 1) = C := by
    have hsh : K ++ 32 :: (natToDecBytes C.length ++ 0 :: C) =
        (K ++ [32] ++ natToDecBytes C.length ++ [0]) ++ C := by simp
    rw [hsh]
    exact List.drop_left' (by simp; omega)
  rw [hshape]
  simp only [decodeObject, h1, hdrop, h2, h3, h4, h5]

/-! Claims C4 and C7: store round-trip and the object invariants. -/

/-- C4: for every kind K among blob, tree and commit and every byte sequence
C, including sequences containing NUL bytes, storing the object with put and
reading it back by the returned hash yields exactly the triple
(K, length of C, C), provided the external compressor pair round-trips. -/
theorem put_get_roundtrip (z : Zlib) (fs : Store) (K C : Bytes)
    (hz : ∀ x, z.inflate (z.deflate x) = some x)
    (hK : K = blobK ∨ K = treeK ∨ K = commitK) :
    readObjectFs z (putObjectFs z fs K C).2 (putObjectFs z fs K C).1 =
      .ok ⟨K, C.length, C⟩ := by
  have hK32 : ∀ x ∈ K, x ≠ 32 := by
    rcases hK with h | h | h <;> subst h <;> decide
  have hlook : storeLookup
      ((objectPath (sha1HexBytes (mkCanonical K C)), z.deflate (mkCanonical K C)) :: fs)
      (objectPath (sha1HexBytes (mkCanonical K C))) = some (z.deflate (mkCanonical K C)) := by
    simp [storeLookup]
  simp only [putObjectFs, readObjectFs, storeObjectFs, hlook, hz]
  exact decodeObject_mkCanonical K C hK32

/-- Witness for C4 at a concrete compressor, kind and content (the content
contains an embedded NUL byte). -/
theorem put_get_roundtrip_witness :
    readObjectFs ⟨fun x => x, fun x => some x⟩
        (putObjectFs ⟨fun x => x, fun x => some x⟩ [] blobK [97, 0, 98]).2
        (putObjectFs ⟨fun x => x, fun x => some x⟩ [] blobK [97, 0, 98]).1 =
      .ok ⟨blobK, 3, [97, 0, 98]⟩ :=
  put_get_roundtrip ⟨fun x => x, fun x => some x⟩ [] blobK [97, 0, 98]
    (fun _ => rfl) (Or.inl rfl)

/-- C7: decoding canonically stored bytes yields an object whose size field
equals the length of its content, and the identifying hash is computed over
the header-plus-content buffer, which is never the content alone. -/
theorem decoded_size_matches_content (z : Zlib) (fs : Store) (K C : Bytes)
    (hK : K = blobK ∨ K = treeK ∨ K = commitK) :
    (∃ o : GitObject, decodeObject (mkCanonical K C) = .ok o ∧
      o.size = o.content.length ∧ o.type = K ∧ o.content = C) ∧
    (putObjectFs z fs K C).1 = sha1HexBytes (mkCanonical K C) ∧
    mkCanonical K C ≠ C := by
  have hK32 : ∀ x ∈ K, x ≠ 32 := by
    rcases hK with h | h | h <;> subst h <;> decide
  refine ⟨⟨⟨K, C.length, C⟩, decodeObject_mkCanonical K C hK32, rfl, rfl, rfl⟩, rfl, ?_⟩
  intro h
  have hlen := congrArg List.length h
  simp only [mkCanonical, List.length_append, List.length_cons, List.length_singleton] at hlen
  omega

/-- Witness for C7 at the blob kind and a one-byte content. -/
theorem decoded_size_matches_content_witness :
    (∃ o : GitObject, decodeObject (mkCanonical blobK [120]) = .ok o ∧
      o.size = o.content.length ∧ o.type = blobK ∧ o.content = [120]) ∧
    (putObjectFs ⟨fun x => x, fun x => some x⟩ [] blobK [120]).1 =
      sha1HexBytes (mkCanonical blobK [120]) ∧
    mkCanonical blobK [120] ≠ [120] :=
  decoded_size_matches_content ⟨fun x => x, fun x => some x⟩ [] blobK [120] (Or.inl rfl)

/-! Claim C8: decode failure behavior. -/

/-- C8 counterexample: a buffer whose prefix before the first space is xyz,
which is not a known kind, decodes successfully instead of failing, so the
claimed MalformedObject rejection of unknown kinds does not happen. -/
theorem decode_unknown_kind_accepted :
    decodeObject [120, 121, 122, 32, 51, 0, 97, 98, 99] =
      .ok ⟨[120, 121, 122], 3, [97, 98, 99]⟩ ∧
    ([120, 121, 122] = blobK ∨ [120, 121, 122] = treeK ∨
      [120, 121, 122] = commitK ∨ [120, 121, 122] = tagK) = False := by
  constructor
  · decide
  · simp only [eq_iff_iff, iff_false]
    decide

/-- C8 amended: read_object returns NULL when the stored bytes fail to
inflate (never content); header parsing accepts any space-terminated prefix
as the type with no validation; a buffer with no space at all, or no NUL
after the first space, puts the code into undefined behavior rather than a
clean MalformedObject failure. -/
theorem decode_error_behavior (z : Zlib) (fs : Store) (hash file buf : Bytes) :
    (storeLookup fs (objectPath hash) = some file → z.inflate file = none →
      readObjectFs z fs hash = .nullRet) ∧
    (memchrIdx 32 buf = none → decodeObject buf = .undef) ∧
    (∀ si, memchrIdx 32 buf = some si → memchrIdx 0 (buf.drop (si + 1)) = none →
      decodeObject buf = .undef) ∧
    (∀ si k, memchrIdx 32 buf = some si → memchrIdx 0 (buf.drop (si + 1)) = some k →
      decodeObject buf =
        .ok ⟨buf.take si, atoiNat (buf.drop (si + 1)), buf.drop (si + 1 + k + 1)⟩) := by
  refine ⟨?_, ?_, ?_, ?_⟩
  · intro hlook hinf
    simp only [readObjectFs, hlook, hinf]
  · intro hsp
    simp only [decodeObject, hsp]
  · intro si hsp hnul
    simp only [decodeObject, hsp, hnul]
  · intro si k hsp hnul
    simp only [decodeObject, hsp, hnul]

/-- Witness for C8 amended: a store whose single file does not inflate makes
get return NULL, and a spaceless buffer drives the decoder into the
undefined-behavior branch. -/
theorem decode_error_behavior_witness :
    readObjectFs ⟨fun x => x, fun _ => none⟩ [(objectPath [97], [5, 6])] [97] =
      .nullRet ∧
    decodeObject [1, 2, 3] = .undef := by
  constructor
  · exact (decode_error_behavior ⟨fun x => x, fun _ => none⟩
      [(objectPath [97], [5, 6])] [97] [5, 6] [1, 2, 3]).1 (by decide) rfl
  · exact (decode_error_behavior ⟨fun x => x, fun _ => none⟩
      [(objectPath [97], [5, 6])] [97] [5, 6] [1, 2, 3]).2.1 (by decide)

/-! Claim C9: pack signature handling. -/

/-- The strstr scan fails when no position of the buffer starts with the
marker. -/
theorem strstrPACK_none (pack : Bytes)
    (h : ∀ i, i < pack.length → isPACKat (pack.drop i) = false) :
    strstrPACK pack = none := by
  induction pack with
  | nil => rfl
  | cons b rest ih =>
    have h0 : isPACKat (b :: rest) = false := h 0 (by simp)
    simp only [strstrPACK, h0, Bool.false_eq_true, if_false]
    by_cases hb : b = 0
    · simp [hb]
    · rw [if_neg hb]
      rw [ih (fun i hi => h (i + 1) (by simpa using hi))]
      rfl

/-- C9: when no PACK marker occurs anywhere in the buffer, process_pack_file
aborts with return code 1 and stores no object, for every decompressor. -/
theorem missing_pack_marker_aborts (D : Inflater) (pack : Bytes)
    (h : ∀ i, i < pack.length → isPACKat (pack.drop i) = false) :
    processPack D pack = (1, []) := by
  simp only [processPack, strstrPACK_none pack h]

/-- Witness for C9 on a short markerless buffer. -/
theorem missing_pack_marker_aborts_witness :
    processPack (fun _ _ => ⟨true, 0, []⟩) [1, 80, 65, 67] = (1, []) :=
  missing_pack_marker_aborts (fun _ _ => ⟨true, 0, []⟩) [1, 80, 65, 67] (by decide)

/-! Claims C2 and C3: cursor behavior of the pack object loop. -/

/-- C2: on a ref-delta record the loop stores nothing and moves the cursor
exactly 20 bytes past the header — only the base reference is skipped.  The
outcome is identical for every decompressor (the payload is never touched),
and the cursor therefore misses the true start of the next record, which lies
a further L bytes ahead for a compressed delta payload of any positive
length L. -/
theorem refDelta_skips_base_only (D D2 : Inflater) (pack : Bytes) (pos L : Nat)
    (hty : (readObjHeader pack pos).1 = 7) (hL : 0 < L) :
    processObject D pack pos = ⟨[], (readObjHeader pack pos).2.2 + 20⟩ ∧
    processObject D pack pos = processObject D2 pack pos ∧
    (processObject D pack pos).pos ≠ (readObjHeader pack pos).2.2 + 20 + L := by
  have hstep : ∀ E : Inflater,
      processObject E pack pos = ⟨[], (readObjHeader pack pos).2.2 + 20⟩ := by
    intro E
    simp [processObject, hty]
  refine ⟨hstep D, (hstep D).trans (hstep D2).symm, ?_⟩
  rw [hstep D]
  simp
  omega

/-- Witness for C2: a one-byte ref-delta header (type 7, size 1) at offset 0;
the cursor lands at 21 = 1 + 20 under two different decompressors. -/
theorem refDelta_skips_base_only_witness :
    processObject (fun _ _ => ⟨false, 0, []⟩) [113] 0 =
      ⟨[], (readObjHeader [113] 0).2.2 + 20⟩ ∧
    processObject (fun _ _ => ⟨false, 0, []⟩) [113] 0 =
      processObject (fun _ _ => ⟨true, 9, [7]⟩) [113] 0 ∧
    (processObject (fun _ _ => ⟨false, 0, []⟩) [113] 0).pos ≠
      (readObjHeader [113] 0).2.2 + 20 + 1 :=
  refDelta_skips_base_only (fun _ _ => ⟨false, 0, []⟩) (fun _ _ => ⟨true, 9, [7]⟩)
    [113] 0 1 (by decide) (by decide)

/-- C3: on a non-delta record whose body reaches Z_STREAM_END, the loop
stores the single re-wrapped object and advances the cursor from the end of
the header by exactly total_in, the number of compressed bytes the
decompressor consumed — so whenever total_in differs from the declared
decompressed size, the cursor does not land at header end plus declared
size. -/
theorem nonDelta_advances_by_totalIn (D : Inflater) (pack : Bytes) (pos : Nat)
    (hty : (readObjHeader pack pos).1 = 1 ∨ (readObjHeader pack pos).1 = 2 ∨
      (readObjHeader pack pos).1 = 3 ∨ (readObjHeader pack pos).1 = 4)
    (hend : (D (pack.drop (readObjHeader pack pos).2.2)
      (readObjHeader pack pos).2.1).streamEnd = true) :
    processObject D pack pos =
      ⟨[(sha1HexBytes (typeName (readObjHeader pack pos).1 ++ [32] ++
            natToDecBytes (readObjHeader pack pos).2.1 ++ [0] ++
            (D (pack.drop (readObjHeader pack pos).2.2)
              (readObjHeader pack pos).2.1).output),
          typeName (readObjHeader pack pos).1 ++ [32] ++
            natToDecBytes (readObjHeader pack pos).2.1 ++ [0] ++
            (D (pack.drop (readObjHeader pack pos).2.2)
              (readObjHeader pack pos).2.1).output)],
        (readObjHeader pack pos).2.2 +
          (D (pack.drop (readObjHeader pack pos).2.2)
            (readObjHeader pack pos).2.1).totalIn⟩ ∧
    ((D (pack.drop (readObjHeader pack pos).2.2)
        (readObjHeader pack pos).2.1).totalIn ≠ (readObjHeader pack pos).2.1 →
      (processObject D pack pos).pos ≠
        (readObjHeader pack pos).2.2 + (readObjHeader pack pos).2.1) := by
  have h1 : processObject D pack pos =
      ⟨[(sha1HexBytes (typeName (readObjHeader pack pos).1 ++ [32] ++
            natToDecBytes (readObjHeader pack pos).2.1 ++ [0] ++
            (D (pack.drop (readObjHeader pack pos).2.2)
              (readObjHeader pack pos).2.1).output),
          typeName (readObjHeader pack pos).1 ++ [32] ++
            natToDecBytes (readObjHeader pack pos).2.1 ++ [0] ++
            (D (pack.drop (readObjHeader pack pos).2.2)
              (readObjHeader pack pos).2.1).output)],
        (readObjHeader pack pos).2.2 +
          (D (pack.drop (readObjHeader pack pos).2.2)
            (readObjHeader pack pos).2.1).totalIn⟩ := by
    simp only [processObject, if_pos hty, hend, if_true]
  refine ⟨h1, ?_⟩
  intro hne
  rw [h1]
  exact fun hc => hne (Nat.add_left_cancel hc)

/-- Witness for C3: a blob record (first byte 0x30, declared size 0) under a
decompressor that consumes five compressed bytes; the cursor lands at
1 + 5 = 6, not at 1 + 0. -/
theorem nonDelta_advances_by_totalIn_witness :
    processObject (fun _ _ => ⟨true, 5, []⟩) [48] 0 =
      ⟨[(sha1HexBytes (typeName (readObjHeader [48] 0).1 ++ [32] ++
            natToDecBytes (readObjHeader [48] 0).2.1 ++ [0] ++
            ((fun (_ : Bytes) (_ : Nat) => (⟨true, 5, []⟩ : InflRes))
              ([48].drop (readObjHeader [48] 0).2.2) (readObjHeader [48] 0).2.1).output),
          typeName (readObjHeader [48] 0).1 ++ [32] ++
            natToDecBytes (readObjHeader [48] 0).2.1 ++ [0] ++
            ((fun (_ : Bytes) (_ : Nat) => (⟨true, 5, []⟩ : InflRes))
              ([48].drop (readObjHeader [48] 0).2.2) (readObjHeader [48] 0).2.1).output)],
        (readObjHeader [48] 0).2.2 +
          ((fun (_ : Bytes) (_ : Nat) => (⟨true, 5, []⟩ : InflRes))
            ([48].drop (readObjHeader [48] 0).2.2) (readObjHeader [48] 0).2.1).totalIn⟩ ∧
    (((fun (_ : Bytes) (_ : Nat) => (⟨true, 5, []⟩ : InflRes))
        ([48].drop (readObjHeader [48] 0).2.2) (readObjHeader [48] 0).2.1).totalIn ≠
        (readObjHeader [48] 0).2.1 →
      (processObject (fun _ _ => ⟨true, 5, []⟩) [48] 0).pos ≠
        (readObjHeader [48] 0).2.2 + (readObjHeader [48] 0).2.1) :=
  nonDelta_advances_by_totalIn (fun _ _ => ⟨true, 5, []⟩) [48] 0
    (Or.inr (Or.inr (Or.inl (by decide)))) (by decide)

/-! Claim C1: closed form of the per-object pack header. -/

/-- The continuation loop equals the spec-side sum over the continuation run:
starting from any accumulator below the current weight, it adds the low 7
bits of each run byte at weights growing by factors of 128, and consumes
exactly the run length. -/
theorem szLoop_spec : ∀ (rest : Bytes) (prev sz shift : Nat), sz < 2 ^ shift →
    szLoop prev rest sz shift =
      (sz + sumContrib (contRun prev rest) shift, (contRun prev rest).length) := by
  intro rest
  induction rest with
  | nil =>
    intro prev sz shift _
    by_cases hp : prev &&& 128 = 0
    · simp [szLoop, contRun, hp, sumContrib]
    · simp [szLoop, contRun, hp, sumContrib]
  | cons b bs ih =>
    intro prev sz shift hsz
    by_cases hp : prev &&& 128 = 0
    · simp [szLoop, contRun, hp, sumContrib]
    · have hb127 : b &&& 127 ≤ 127 := Nat.and_le_right
      have hor : sz ||| ((b &&& 127) <<< shift) = 2 ^ shift * (b &&& 127) + sz := by
        rw [Nat.shiftLeft_eq, Nat.lor_comm, Nat.mul_comm (b &&& 127) (2 ^ shift)]
        exact (Nat.mul_add_lt_is_or hsz (b &&& 127)).symm
      have hbound : 2 ^ shift * (b &&& 127) + sz < 2 ^ (shift + 7) := by
        have hm : 2 ^ shift * (b &&& 127) ≤ 2 ^ shift * 127 :=
          Nat.mul_le_mul_left _ hb127
        rw [pow_add]
        have h7 : (2 : Nat) ^ 7 = 128 := by norm_num
        rw [h7]
        omega
      simp only [szLoop, if_neg hp]
      rw [hor, ih b _ (shift + 7) hbound]
      simp only [contRun, if_neg hp, sumContrib, List.length_cons]
      rw [Prod.mk.injEq]
      exact ⟨by ring, rfl⟩

/-- Selecting bits 4 to 6 by shifting then masking agrees with masking by
0x70 then shifting, for every first byte. -/
theorem shift4_and7 (b : Nat) : (b >>> 4) &&& 7 = (b &&& 112) >>> 4 := by
  apply Nat.eq_of_testBit_eq
  intro i
  simp only [Nat.testBit_and, Nat.testBit_shiftRight]
  have haux : Nat.testBit 7 i = Nat.testBit 112 (4 + i) := by
    match i with
    | 0 => decide
    | 1 => decide
    | 2 => decide
    | i + 3 =>
      have h3 : (2 : Nat) ^ 3 ≤ 2 ^ (i + 3) :=
        Nat.pow_le_pow_right (by norm_num) (by omega)
      have h7p : (2 : Nat) ^ 7 ≤ 2 ^ (4 + (i + 3)) :=
        Nat.pow_le_pow_right (by norm_num) (by omega)
      have e1 : Nat.testBit 7 (i + 3) = false := Nat.testBit_lt_two_pow (by omega)
      have e2 : Nat.testBit 112 (4 + (i + 3)) = false := Nat.testBit_lt_two_pow (by omega)
      rw [e1, e2]
  rw [haux]

/-- C1 amended: the per-object header decodes with the type taken from bits
4 to 6 of the first byte (mask 0x70), the size seeded by the LOW FOUR bits of
the first byte (bits 0 to 3, mask 0x0f — not the low 3 bits the claim text
says), extended by the low 7 bits of each continuation byte at shifts 4, 11,
18 and so on while the top bit of the current byte is set, and the cursor
moves one byte per byte examined. -/
theorem packHeader_decodes_spec (data : Bytes) (pos : Nat) :
    readObjHeader data pos =
      (specHeaderType data pos, specHeaderSize 15 data pos,
        pos + 1 + (contRun (data.getD pos 0) (data.drop (pos + 1))).length) := by
  have hsz : data.getD pos 0 &&& 15 < 2 ^ 4 := by
    have h15 : data.getD pos 0 &&& 15 ≤ 15 := Nat.and_le_right
    omega
  simp only [readObjHeader, specHeaderType, specHeaderSize]
  rw [szLoop_spec _ _ _ _ hsz, shift4_and7]

/-- C1 counterexample: for the single-byte header 0x38 (type bits 011, low
nibble 1000) the code computes size 8 from the LOW FOUR bits, while the claim
text, which takes only the low 3 bits of the first byte as size bits, yields
size 0. -/
theorem packHeader_low3_counterexample :
    (readObjHeader [56] 0).2.1 = 8 ∧ specHeaderSize 7 [56] 0 = 0 ∧
    (readObjHeader [56] 0).2.1 ≠ specHeaderSize 7 [56] 0 := by decide

/-! Claim C5: SHA-1 test vectors and digest shape. -/

/-- The sixteen characters a lowercase hex rendering can produce. -/
def hexAlphabet : List Char := "0123456789abcdef".toList

/-- Two hex characters per byte. -/
theorem hexBytes_length : ∀ l : Bytes, (hexBytes l).length = 2 * l.length := by
  intro l
  induction l with
  | nil => rfl
  | cons b bs ih =>
    simp only [hexBytes, List.length_cons, ih]
    omega

/-- The raw digest always holds 20 bytes. -/
theorem sha1Digest_length (msg : Bytes) : (sha1Digest msg).length = 20 := by
  simp [sha1Digest, be32]

/-- Every byte of a hex rendering is the image of a nibble. -/
theorem mem_hexBytes : ∀ (l : Bytes) (b : Nat), b ∈ hexBytes l →
    ∃ n, n < 16 ∧ b = hexDigitVal n := by
  intro l
  induction l with
  | nil => intro b h; simp [hexBytes] at h
  | cons x xs ih =>
    intro b h
    simp only [hexBytes, List.mem_cons] at h
    rcases h with h | h | h
    · exact ⟨x / 16 % 16, Nat.mod_lt _ (by decide), h⟩
    · exact ⟨x % 16, Nat.mod_lt _ (by decide), h⟩
    · exact ih b h

/-- Each nibble maps into the lowercase hex alphabet. -/
theorem hexDigit_mem : ∀ n, n < 16 → Char.ofNat (hexDigitVal n) ∈ hexAlphabet := by
  decide

/-- C5 amended: hashing the canonical bytes of a blob with content hello
followed by a newline yields ce013625030ba8dba906f756967f9e9ca394464a — the
40-character value, ending in a, of which the claim text kept only 39
characters — the empty blob yields e69de29bb2d1d6434b8b29ae775ad8c2e48c5391,
and for every input the digest function returns a 40-character lowercase hex
string. -/
theorem sha1_known_vectors (data : Bytes) :
    sha1HexString (mkCanonical blobK [104, 101, 108, 108, 111, 10]) =
      "ce013625030ba8dba906f756967f9e9ca394464a" ∧
    sha1HexString (mkCanonical blobK []) =
      "e69de29bb2d1d6434b8b29ae775ad8c2e48c5391" ∧
    (sha1HexString data).length = 40 ∧
    ∀ c ∈ (sha1HexString data).toList, c ∈ hexAlphabet := by
  refine ⟨by decide, by decide, ?_, ?_⟩
  · show ((sha1HexBytes data).map Char.ofNat).length = 40
    rw [List.length_map]
    show (hexBytes (sha1Digest data)).length = 40
    rw [hexBytes_length, sha1Digest_length]
  · intro c hc
    have hc2 : c ∈ (sha1HexBytes data).map Char.ofNat := hc
    obtain ⟨b, hb, rfl⟩ := List.mem_map.mp hc2
    obtain ⟨n, hn16, rfl⟩ := mem_hexBytes _ b hb
    exact hexDigit_mem n hn16

/-- C5 counterexample: the digest of the hello blob is not the 39-character
string the claim text gives. -/
theorem sha1_hello_vector_counterexample :
    sha1HexString (mkCanonical blobK [104, 101, 108, 108, 111, 10]) ≠
      "ce013625030ba8dba906f756967f9e9ca394464" := by decide

/-! Claim C6: tree entry ordering. -/

/-- The regular-file mode string 100644 as bytes. -/
def fileMode : Bytes := [49, 48, 48, 54, 52, 52]

/-- C6: a tree collected with entries named b, a, ab is sorted into the order
a, ab, b by the exchange sort (byte-wise ascending strcmp), and parsing the
serialized content of the sorted tree reproduces the same entries in the same
order. -/
theorem tree_ordering_roundtrip :
    sortEntries [⟨fileMode, [98], List.replicate 40 97⟩,
        ⟨fileMode, [97], List.replicate 40 98⟩,
        ⟨fileMode, [97, 98], List.replicate 40 99⟩] =
      [⟨fileMode, [97], List.replicate 40 98⟩,
        ⟨fileMode, [97, 98], List.replicate 40 99⟩,
        ⟨fileMode, [98], List.replicate 40 97⟩] ∧
    parseTreeObject
        ⟨treeK,
          (treeContent [⟨fileMode, [97], List.replicate 40 98⟩,
            ⟨fileMode, [97, 98], List.replicate 40 99⟩,
            ⟨fileMode, [98], List.replicate 40 97⟩]).length,
          treeContent [⟨fileMode, [97], List.replicate 40 98⟩,
            ⟨fileMode, [97, 98], List.replicate 40 99⟩,
            ⟨fileMode, [98], List.replicate 40 97⟩]⟩ =
      some [⟨fileMode, [97], List.replicate 40 98⟩,
        ⟨fileMode, [97, 98], List.replicate 40 99⟩,
        ⟨fileMode, [98], List.replicate 40 97⟩] := by decide

/-! Claim C10: checkout of a tree with missing blobs. -/

/-- Folding a no-op step leaves the accumulator untouched. -/
theorem foldl_checkout_missing (R : Bytes → Option GitObject) (pre : Bytes) :
    ∀ (es : List TEntry) (fs : FS), (∀ e ∈ es, R e.hash = none) →
      es.foldl (fun acc e =>
        match R e.hash with
        | some blob => fsWrite acc (pre ++ [47] ++ e.name) (blob.content.take blob.size)
        | none => acc) fs = fs := by
  intro es
  induction es with
  | nil => intro fs _; rfl
  | cons e rest ih =>
    intro fs hall
    have he : R e.hash = none := hall e (by simp)
    simp only [List.foldl_cons, he]
    exact ih fs (fun x hx => hall x (by simp [hx]))

/-- C10: checking out a tree all of whose entries are file entries writes one
file per entry whose blob the store can produce, silently passes over every
entry whose blob read returns NULL, and returns success — in particular, when
every blob is missing the file system is left untouched and the return code
is still 0. -/
theorem checkout_skips_missing_blob (R : Bytes → Option GitObject) (fs : FS)
    (pre th : Bytes) (fuel : Nat) (obj : GitObject) (es : List TEntry)
    (hR : R th = some obj) (hp : parseTreeObject obj = some es)
    (hnd : ∀ e ∈ es, e.mode ≠ dirMode) :
    checkoutTree R (fuel + 1) th pre fs =
      (es.foldl (fun acc e =>
        match R e.hash with
        | some blob => fsWrite acc (pre ++ [47] ++ e.name) (blob.content.take blob.size)
        | none => acc) fs, 0) ∧
    ((∀ e ∈ es, R e.hash = none) → (checkoutTree R (fuel + 1) th pre fs).1 = fs) := by
  have hmain : checkoutTree R (fuel + 1) th pre fs =
      (es.foldl (fun acc e =>
        match R e.hash with
        | some blob => fsWrite acc (pre ++ [47] ++ e.name) (blob.content.take blob.size)
        | none => acc) fs, 0) := by
    simp only [checkoutTree, hR, hp]
    congr 1
    apply List.foldl_ext
    intro acc e he
    rw [if_neg (hnd e he)]
  refine ⟨hmain, ?_⟩
  intro hall
  rw [hmain]
  exact foldl_checkout_missing R pre es fs hall

/-- Concrete hash of the present blob for the C10 witness: the 40-character
hex form of a raw hash of 20 0xaa bytes. -/
def c10HashA : Bytes := List.replicate 40 97

/-- Concrete hash of the absent blob for the C10 witness. -/
def c10HashB : Bytes := List.replicate 40 98

/-- Two file entries for the C10 witness tree: name a with a present blob,
name b with an absent one. -/
def c10Entries : List TEntry :=
  [⟨fileMode, [97], c10HashA⟩, ⟨fileMode, [98], c10HashB⟩]

/-- The serialized C10 witness tree object. -/
def c10Tree : GitObject :=
  ⟨treeK, (treeContent c10Entries).length, treeContent c10Entries⟩

/-- The C10 witness store: the tree under hash t, one blob with content x
under the first entry hash, nothing else. -/
def c10R : Bytes → Option GitObject := fun h =>
  if h = [116] then some c10Tree
  else if h = c10HashA then some ⟨blobK, 1, [120]⟩
  else none

/-- Witness for C10: checking out the witness tree writes the present blob,
skips the missing one and succeeds. -/
theorem checkout_skips_missing_blob_witness :
    checkoutTree c10R 1 [116] [100] ⟨[], []⟩ =
      (c10Entries.foldl (fun acc e =>
        match c10R e.hash with
        | some blob => fsWrite acc ([100] ++ [47] ++ e.name) (blob.content.take blob.size)
        | none => acc) ⟨[], []⟩, 0) ∧
    ((∀ e ∈ c10Entries, c10R e.hash = none) →
      (checkoutTree c10R 1 [116] [100] ⟨[], []⟩).1 = ⟨[], []⟩) :=
  checkout_skips_missing_blob c10R ⟨[], []⟩ [100] [116] 0 c10Tree c10Entries
    (by decide) (by decide) (by decide)

/-- Witness for C1 amended on a two-byte header with a continuation byte. -/
theorem packHeader_decodes_spec_witness :
    readObjHeader [145, 5] 0 =
      (specHeaderType [145, 5] 0, specHeaderSize 15 [145, 5] 0,
        0 + 1 + (contRun ([145, 5].getD 0 0) ([145, 5].drop (0 + 1))).length) :=
  packHeader_decodes_spec [145, 5] 0

/-- Witness for C5 amended at the empty message. -/
theorem sha1_known_vectors_witness :
    sha1HexString (mkCanonical blobK [104, 101, 108, 108, 111, 10]) =
      "ce013625030ba8dba906f756967f9e9ca394464a" ∧
    sha1HexString (mkCanonical blobK []) =
      "e69de29bb2d1d6434b8b29ae775ad8c2e48c5391" ∧
    (sha1HexString []).length = 40 ∧
    ∀ c ∈ (sha1HexString []).toList, c ∈ hexAlphabet :=
  sha1_known_vectors []
